import Mathlib

/-!
Verification of the IPL auction room application
(`src/app/room/[roomId]/page.tsx` and
`src/app/room/[roomId]/team-setup/page.tsx`).

The TypeScript handlers are embedded as pure Lean functions over an explicit
`Room` state.  Firebase records (`teams`, `players`, `playersBought`) are
modelled as association lists keyed by `String`; a multi-path `update` becomes
a function producing a new `Room`; a handler that returns without writing
becomes `none`.  JavaScript numbers are modelled by `ℚ`, epoch-millisecond
timestamps by `ℤ`, and JavaScript truthiness on optional strings / numbers by
explicit helper functions (`""` and `0` are falsy).
-/

namespace IplAuction

/-- Association-list lookup, modelling a JavaScript object-key access
`obj[k]` (`none` = `undefined`). -/
def lookupKV {β : Type} (l : List (String × β)) (k : String) : Option β :=
  match l with
  | [] => none
  | (k', v) :: rest => if k' = k then some v else lookupKV rest k

/-- Association-list write, modelling a Firebase write to `path/k`:
replaces the value at key `k`, or appends the entry when the key is new. -/
def setKV {β : Type} (l : List (String × β)) (k : String) (v : β) :
    List (String × β) :=
  match l with
  | [] => [(k, v)]
  | (k', v') :: rest =>
    if k' = k then (k, v) :: rest else (k', v') :: setKV rest k v

/-- JavaScript truthiness of an optional string: `null`/`undefined` and `""`
are falsy. -/
def jsTruthyStr : Option String → Bool
  | none => false
  | some s => s ≠ ""

/-- JavaScript truthiness of an optional number: `null`/`undefined` and `0`
are falsy. -/
def jsTruthyInt : Option ℤ → Bool
  | none => false
  | some v => v ≠ 0

/-- JavaScript `Math.trunc`-style integer part (toward zero), used by the
`%` operator on numbers. -/
def jsTrunc (q : ℚ) : ℤ := if q < 0 then ⌈q⌉ else ⌊q⌋

/-- JavaScript remainder `a % b` on (finite, `b ≠ 0`) numbers:
`a - b * trunc (a / b)`. -/
def jsMod (a b : ℚ) : ℚ := a - b * (jsTrunc (a / b) : ℚ)

/-- `safeNum` from the source: `null`/`undefined`/non-numeric coerce to 0
(the `none` case); a genuine number passes through. -/
def safeNum (o : Option ℚ) : ℚ := o.getD 0

/-- `(q).toFixed(2)` for the amounts appearing in result messages. -/
def toFixed2 (q : ℚ) : String :=
  let n : ℤ := round (q * 100)
  let sign := if n < 0 then "-" else ""
  let m := n.natAbs
  sign ++ toString (m / 100) ++ "." ++
    (if m % 100 < 10 then "0" else "") ++ toString (m % 100)

/-! ## Data model -/

inductive PlayerStatus
  | not_started
  | in_auction
  | sold
  | unsold
deriving DecidableEq, Repr

structure Player where
  name : String
  basePriceLakhs : ℚ
  status : PlayerStatus
  soldToTeamId : Option String
  soldPriceLakhs : Option ℚ
deriving DecidableEq, Repr

structure BoughtPlayer where
  name : String
  priceLakhs : ℚ
deriving DecidableEq, Repr

/-- The `slots` counters stored on a team record (`{BAT, BOWL, AR, TOTAL}`). -/
structure TeamSlotCounters where
  BAT : ℚ
  BOWL : ℚ
  AR : ℚ
  TOTAL : ℚ
deriving DecidableEq, Repr

structure Team where
  name : String
  color : String
  purseRemainingLakhs : ℚ
  timeBankSeconds : ℚ
  slots : TeamSlotCounters
  ownerUid : Option String
  createdAt : Option ℤ
  playersBought : List (String × BoughtPlayer)
deriving DecidableEq, Repr

inductive AuctionStatus
  | not_started
  | running
  | finished
  | showing_result
deriving DecidableEq, Repr

structure AuctionState where
  sets : List (List String)
  currentSetIndex : Nat
  currentPlayerIndex : Nat
  currentBidLakhs : Option ℚ
  currentBidTeamId : Option String
  bidDeadlineTs : Option ℤ
  status : AuctionStatus
  satOutTeams : List String
  resultMessage : Option String
  resultUntilTs : Option ℤ
deriving DecidableEq, Repr

structure Room where
  teams : List (String × Team)
  players : List (String × Player)
  auction : AuctionState
  adminUid : Option String
deriving DecidableEq, Repr

/-! ## Pure functions from the source -/

/-- The fixed 10-color palette `TEAM_COLORS`. -/
def TEAM_COLORS : List String :=
  ["#EF4444", "#F97316", "#EAB308", "#22C55E", "#06B6D4",
   "#3B82F6", "#6366F1", "#A855F7", "#EC4899", "#F97373"]

/-- `teamOutOfPurse`: a missing team counts as out of purse; otherwise the
remaining purse is below one increment unit (50 lakhs). -/
def teamOutOfPurse (t : Option Team) : Bool :=
  match t with
  | none => true
  | some team => decide (team.purseRemainingLakhs < 50)

/-- `isEffectivelySatOut`: missing team, out of purse, or explicitly flagged
in `satOutTeams` for the current player. -/
def isEffectivelySatOut (teamId : String) (auction : AuctionState)
    (teams : List (String × Team)) : Bool :=
  match lookupKV teams teamId with
  | none => true
  | some team =>
    teamOutOfPurse (some team) || decide (teamId ∈ auction.satOutTeams)

/-- `computeFinalAuctionStatus`: decide whether the auction ends early based
on purse / squad size of every team. -/
def computeFinalAuctionStatus (nextStatusFromSets : AuctionStatus)
    (teamsAfter : List (String × Team)) : AuctionStatus :=
  let vals := teamsAfter.map Prod.snd
  if vals.length = 0 then nextStatusFromSets
  else
    let allNoPurse := vals.all fun t => decide (t.purseRemainingLakhs < 50)
    let allOverLimit := vals.all fun t => decide (t.playersBought.length ≥ 25)
    if allNoPurse && allOverLimit then .finished
    else if nextStatusFromSets = .finished then .finished
    else .running

/-- The player id at the current pointer:
`(auction.sets[currentSetIndex] || [])[currentPlayerIndex]`. -/
def currentPlayerIdOf (a : AuctionState) : Option String :=
  (a.sets.getD a.currentSetIndex []).get? a.currentPlayerIndex

/-- Result triple of `advanceToNextPlayerFields`. -/
structure AdvanceFields where
  nextSetIndex : Nat
  nextPlayerIndex : Nat
  nextStatus : AuctionStatus
deriving DecidableEq, Repr

/-- `advanceToNextPlayerFields`: advance the player pointer (same set if more
remain, else next set, else `finished`). -/
def advanceToNextPlayerFields (auction : AuctionState) : AdvanceFields :=
  if auction.sets = [] then ⟨0, 0, .finished⟩
  else
    let currentSet := auction.sets.getD auction.currentSetIndex []
    if auction.currentPlayerIndex + 1 < currentSet.length then
      ⟨auction.currentSetIndex, auction.currentPlayerIndex + 1, auction.status⟩
    else if auction.currentSetIndex + 1 < auction.sets.length then
      ⟨auction.currentSetIndex + 1, 0, auction.status⟩
    else
      ⟨auction.currentSetIndex, auction.currentPlayerIndex, .finished⟩

/-- `auctionNow.bidDeadlineTs && auctionNow.bidDeadlineTs < Date.now()`:
the deadline-already-passed test used by the bid handlers. -/
def deadlinePassed (o : Option ℤ) (now : ℤ) : Bool :=
  match o with
  | none => false
  | some d => (d ≠ 0 : Bool) && decide (d < now)

/-! ## Scoring engine -/

/-- Raw per-player batting statistics; `none` models a missing or non-numeric
field (which `safeNum` coerces to 0). -/
structure BattingRaw where
  runs : Option ℚ
  avg : Option ℚ
  sr : Option ℚ
  fours : Option ℚ
  sixes : Option ℚ
deriving DecidableEq, Repr

structure BowlingRaw where
  wickets : Option ℚ
  avg : Option ℚ
  econ : Option ℚ
  sr : Option ℚ
deriving DecidableEq, Repr

structure SeasonPlayerRaw where
  name : String
  batting : BattingRaw
  bowling : BowlingRaw
deriving DecidableEq, Repr

structure Scores where
  battingScore : ℚ
  bowlingScore : ℚ
  allRounderScore : ℚ
deriving DecidableEq, Repr

/-- The scoring computation from `scoredPlayers` (room page, also duplicated
on the team-setup page): batting sum, `CF1 * wickets + (econ > 0 ? CF2 / econ
: 0)`, and `CF3 * (batting + bowling)`. -/
def scoreSeasonPlayer (CF1 CF2 CF3 : ℚ) (p : SeasonPlayerRaw) : Scores :=
  let battingScore :=
    safeNum p.batting.runs + safeNum p.batting.sr + safeNum p.batting.avg +
      safeNum p.batting.fours + safeNum p.batting.sixes
  let wickets := safeNum p.bowling.wickets
  let econ := safeNum p.bowling.econ
  let bowlingScore := CF1 * wickets + (if 0 < econ then CF2 / econ else 0)
  let allRounderScore := CF3 * (battingScore + bowlingScore)
  ⟨battingScore, bowlingScore, allRounderScore⟩

/-! ## Settlement and bidding handlers

Each handler takes the authoritative room state (the fresh `get` snapshot and
the subscribed state coincide in this sequential model), the caller's team id
where relevant, and the current wall-clock time.  `none` means the handler
returned without performing any write.  -/

/-- The winning bid recognised by the settlement code:
`currentBidTeamId && currentBidLakhs != null` (an empty-string team id is
falsy and therefore treated as "no bid"). -/
def winningBid (a : AuctionState) : Option (String × ℚ) :=
  match a.currentBidTeamId, a.currentBidLakhs with
  | some tid, some b => if tid = "" then none else some (tid, b)
  | _, _ => none

/-- The cleared auction fields shared by every settlement write: bid, deadline
and sat-out flags nulled, status `showing_result`, 5-second result window. -/
def settledAuction (a : AuctionState) (msg : String) (now : ℤ) : AuctionState :=
  { a with
    currentBidLakhs := none
    currentBidTeamId := none
    bidDeadlineTs := none
    satOutTeams := []
    status := .showing_result
    resultMessage := some msg
    resultUntilTs := some (now + 5000) }

/-- The single multi-path update of a sold settlement: player marked sold,
team debited, player appended to `playersBought`, auction cleared. -/
def soldUpdates (room : Room) (pid : String) (player : Player) (tid : String)
    (team : Team) (b : ℚ) (now : ℤ) : Room :=
  let newPurse := team.purseRemainingLakhs - b
  let msg := player.name ++ " sold to " ++ team.name ++ " for " ++
    toFixed2 (b / 100) ++ " Cr"
  { room with
    players := setKV room.players pid
      { player with
        status := .sold
        soldToTeamId := some tid
        soldPriceLakhs := some b }
    teams := setKV room.teams tid
      { team with
        purseRemainingLakhs := newPurse
        playersBought := setKV team.playersBought pid ⟨player.name, b⟩ }
    auction := settledAuction room.auction msg now }

/-- The single multi-path update of an unsold settlement. -/
def unsoldUpdates (room : Room) (pid : String) (player : Player) (now : ℤ) :
    Room :=
  { room with
    players := setKV room.players pid { player with status := .unsold }
    auction := settledAuction room.auction (player.name ++ " went unsold") now }

/-- `doFinalize` (the timer-expiry settlement, polled every 300 ms): bail out
unless status is `running`, a (non-zero) deadline exists and has passed, and a
current player exists; then settle sold/unsold in one combined update. -/
def doFinalize (room : Room) (now : ℤ) : Option Room :=
  let a := room.auction
  if a.status ≠ .running then none
  else
    match a.bidDeadlineTs with
    | none => none
    | some d =>
      if d = 0 then none
      else if now < d then none
      else
        match currentPlayerIdOf a with
        | none => none
        | some pid =>
          if pid = "" then none
          else
            match lookupKV room.players pid with
            | none => none
            | some player =>
              match winningBid a with
              | some (tid, b) =>
                match lookupKV room.teams tid with
                | none => none
                | some team => some (soldUpdates room pid player tid team b now)
              | none => some (unsoldUpdates room pid player now)

/-- `autoSellToSingleActiveBidder`: if exactly one active (not effectively
sat-out) team remains and it holds the current highest bid, sell immediately. -/
def autoSellToSingleActiveBidder (room : Room) (now : ℤ) : Option Room :=
  let a := room.auction
  if a.status ≠ .running then none
  else
    match currentPlayerIdOf a with
    | none => none
    | some pid =>
      if pid = "" then none
      else
        let activeTeamIds := (room.teams.map Prod.fst).filter
          fun id => ! isEffectivelySatOut id a room.teams
        match winningBid a with
        | none => none
        | some (tid, b) =>
          match activeTeamIds with
          | [lastTeamId] =>
            -- `activeTeamIds.length !== 1` bails out; `activeTeamIds[0]`
            if lastTeamId ≠ tid then none
            else
              match lookupKV room.teams lastTeamId,
                  lookupKV room.players pid with
              | some team, some player =>
                some (soldUpdates room pid player lastTeamId team b now)
              | _, _ => none
          | _ => none

/-- `handleSitOut`: flag the caller as sat out for the current player; if one
active team remains, try the single-active-bidder shortcut; if none remain,
settle immediately (note: this settlement path performs no `running`-status
re-check). -/
def handleSitOut (room : Room) (localTeamId : String) (now : ℤ) : Option Room :=
  if localTeamId = "" then none
  else
    match lookupKV room.teams localTeamId with
    | none => none
    | some _ =>
      let a := room.auction
      match currentPlayerIdOf a with
      | none => none
      | some pid =>
        if pid = "" then none
        else if localTeamId ∈ a.satOutTeams then none
        else
          let newSatOut := a.satOutTeams ++ [localTeamId]
          let activeTeamIds := (room.teams.map Prod.fst).filter
            fun id =>
              ! isEffectivelySatOut id { a with satOutTeams := newSatOut }
                room.teams
          if activeTeamIds.length > 1 then
            some { room with auction := { a with satOutTeams := newSatOut } }
          else if activeTeamIds.length = 1 then
            let room1 := { room with auction := { a with satOutTeams := newSatOut } }
            some ((autoSellToSingleActiveBidder room1 now).getD room1)
          else
            match lookupKV room.players pid with
            | none => none
            | some player =>
              match winningBid a with
              | some (tid, b) =>
                match lookupKV room.teams tid with
                | none => none
                | some team => some (soldUpdates room pid player tid team b now)
              | none => some (unsoldUpdates room pid player now)

/-- `handleStartBidding`: first bid on a player at exactly the base price,
only while no bid exists; also marks the player `in_auction`. -/
def handleStartBidding (room : Room) (localTeamId : String)
    (basePriceLakhs : ℚ) (playerId : Option String) (now : ℤ) : Option Room :=
  match playerId with
  | none => none
  | some pid =>
    if pid = "" then none
    else if localTeamId = "" then none
    else
      match lookupKV room.teams localTeamId with
      | none => none
      | some myTeam =>
        if teamOutOfPurse (some myTeam) then none
        else
          let a := room.auction
          if a.status ≠ .running then none
          else if deadlinePassed a.bidDeadlineTs now then none
          else if a.currentBidLakhs ≠ none then none
          else if isEffectivelySatOut localTeamId a room.teams then none
          else
            let newBidLakhs := basePriceLakhs
            if newBidLakhs > myTeam.purseRemainingLakhs then none
            else
              let room1 := { room with auction :=
                { a with
                  currentBidLakhs := some newBidLakhs
                  currentBidTeamId := some localTeamId
                  bidDeadlineTs := some (now + 30000) } }
              let players' :=
                match lookupKV room1.players pid with
                | some p => setKV room1.players pid { p with status := .in_auction }
                | none =>
                  -- a write to `players/{pid}/status` creates the record
                  setKV room1.players pid ⟨"", 0, .in_auction, none, none⟩
              some { room1 with players := players' }

/-- `handleRaiseBid`: raise the current bid (or the base price when no bid
exists) by a fixed increment; must stay a multiple of 50 and within purse. -/
def handleRaiseBid (room : Room) (localTeamId : String)
    (incrementLakhs basePriceLakhs : ℚ) (playerId : Option String) (now : ℤ) :
    Option Room :=
  match playerId with
  | none => none
  | some pid =>
    if pid = "" then none
    else if localTeamId = "" then none
    else
      match lookupKV room.teams localTeamId with
      | none => none
      | some myTeam =>
        if teamOutOfPurse (some myTeam) then none
        else
          let a := room.auction
          if a.currentBidTeamId = some localTeamId then none
          else if a.status ≠ .running then none
          else if deadlinePassed a.bidDeadlineTs now then none
          else if isEffectivelySatOut localTeamId a room.teams then none
          else
            let currentBidLakhs := a.currentBidLakhs.getD basePriceLakhs
            let newBidLakhs := currentBidLakhs + incrementLakhs
            if jsMod newBidLakhs 50 ≠ 0 then none
            else if newBidLakhs > myTeam.purseRemainingLakhs then none
            else
              some { room with auction :=
                { a with
                  currentBidLakhs := some newBidLakhs
                  currentBidTeamId := some localTeamId
                  bidDeadlineTs := some (now + 30000) } }

/-- `handlePlaceCustomBid`: an absolute amount in the selected display unit
(`displayNum = Number(displayValue)`, `none` = NaN), converted to lakhs; must
be positive, a multiple of 50, strictly above the known highest bid, and
within purse. -/
def handlePlaceCustomBid (room : Room) (localTeamId : String)
    (displayNum : Option ℚ) (showInCrores : Bool) (basePriceLakhs : ℚ)
    (playerId : Option String) (now : ℤ) : Option Room :=
  match playerId with
  | none => none
  | some pid =>
    if pid = "" then none
    else if localTeamId = "" then none
    else
      match lookupKV room.teams localTeamId with
      | none => none
      | some myTeam =>
        if teamOutOfPurse (some myTeam) then none
        else
          match displayNum with
          | none => none
          | some n =>
            if n ≤ 0 then none
            else
              let customLakhs := if showInCrores then n * 100 else n
              if jsMod customLakhs 50 ≠ 0 then none
              else
                let a := room.auction
                if a.currentBidTeamId = some localTeamId then none
                else if a.status ≠ .running then none
                else if deadlinePassed a.bidDeadlineTs now then none
                else if isEffectivelySatOut localTeamId a room.teams then none
                else
                  let serverCurrent := a.currentBidLakhs.getD basePriceLakhs
                  if customLakhs ≤ serverCurrent then none
                  else if customLakhs > myTeam.purseRemainingLakhs then none
                  else
                    some { room with auction :=
                      { a with
                        currentBidLakhs := some customLakhs
                        currentBidTeamId := some localTeamId
                        bidDeadlineTs := some (now + 30000) } }

/-- `handleUseTimeBank`: spend 15 seconds of the caller's time bank to push
the deadline out by 15 s. -/
def handleUseTimeBank (room : Room) (localTeamId : String) (now : ℤ) :
    Option Room :=
  if localTeamId = "" then none
  else
    match lookupKV room.teams localTeamId with
    | none => none
    | some myTeam =>
      let remaining := myTeam.timeBankSeconds
      if remaining < 15 then none
      else
        let currentDeadline := room.auction.bidDeadlineTs.getD now
        some { room with
          auction := { room.auction with
            bidDeadlineTs := some (currentDeadline + 15000) }
          teams := setKV room.teams localTeamId
            { myTeam with timeBankSeconds := remaining - 15 } }

/-- `handleNextPlayer` (admin skip): refuse while a bid is active; end early
when `computeFinalAuctionStatus` says so; otherwise advance the pointer. -/
def handleNextPlayer (room : Room) (now : ℤ) : Option Room :=
  if room.auction.currentBidLakhs ≠ none then none
  else
    let earlyStatus := computeFinalAuctionStatus room.auction.status room.teams
    if earlyStatus = .finished then
      some { room with auction :=
        { room.auction with status := .finished, bidDeadlineTs := none } }
    else
      let f := advanceToNextPlayerFields room.auction
      some { room with auction :=
        { room.auction with
          currentSetIndex := f.nextSetIndex
          currentPlayerIndex := f.nextPlayerIndex
          currentBidLakhs := none
          currentBidTeamId := none
          satOutTeams := []
          status := f.nextStatus
          resultMessage := none
          resultUntilTs := none
          bidDeadlineTs :=
            if f.nextStatus ≠ .finished then some (now + 30000) else none } }

/-- `handleStartAuction`: flip to `running`; when a player exists at the
pointer, (re)arm a 30-second deadline (keeping an existing one) and clear the
sat-out flags. -/
def handleStartAuction (room : Room) (now : ℤ) : Option Room :=
  if room.auction.status = .finished then none
  else
    let a := room.auction
    if jsTruthyStr (currentPlayerIdOf a) then
      some { room with auction :=
        { a with
          status := .running
          resultMessage := none
          resultUntilTs := none
          bidDeadlineTs := some (a.bidDeadlineTs.getD (now + 30000))
          satOutTeams := [] } }
    else
      some { room with auction :=
        { a with
          status := .running
          resultMessage := none
          resultUntilTs := none } }

/-- `runAdvance` (the 5-second result-window auto-advance): only from
`showing_result`; advance the pointer, apply the early-termination check, and
arm a fresh deadline when a next player exists. -/
def runAdvance (room : Room) (now : ℤ) : Option Room :=
  let a := room.auction
  if a.status ≠ .showing_result then none
  else
    let f := advanceToNextPlayerFields a
    let finalStatus := computeFinalAuctionStatus f.nextStatus room.teams
    let nextDeadline : Option ℤ :=
      if finalStatus ≠ .finished then
        match (a.sets.getD f.nextSetIndex []).get? f.nextPlayerIndex with
        | some p => if p = "" then none else some (now + 30000)
        | none => none
      else none
    some { room with auction :=
      { a with
        currentSetIndex := f.nextSetIndex
        currentPlayerIndex := f.nextPlayerIndex
        status := finalStatus
        bidDeadlineTs := nextDeadline
        currentBidLakhs := none
        currentBidTeamId := none
        satOutTeams := []
        resultMessage := none
        resultUntilTs := none } }

/-- `handleCreateTeam`: create a team with the fixed starting purse and time
bank, the first unused palette color, and claim `adminUid` when unset.
`name` is the already-trimmed team-name input (`teamNameInput.trim()`);
`newKey` is the store-generated push key. -/
def handleCreateTeam (room : Room) (name : String)
    (authUid : Option String) (newKey : String) (now : ℤ) : Option Room :=
  if name = "" then none
  else
    match authUid with
    | none => none
    | some uid =>
      if uid = "" then none
      else
        let nameTaken := room.teams.any
          fun kv => kv.2.name.toLower = name.toLower
        if nameTaken then none
        else
          let usedColors := room.teams.map fun kv => kv.2.color
          let color :=
            (TEAM_COLORS.find? fun c => ¬ usedColors.contains c).getD "#FFFFFF"
          let newTeam : Team :=
            { name := name, color := color, purseRemainingLakhs := 10000,
              timeBankSeconds := 120, slots := ⟨0, 0, 0, 0⟩,
              ownerUid := some uid, createdAt := some now, playersBought := [] }
          let adminUid' :=
            if jsTruthyStr room.adminUid then room.adminUid else some uid
          some { room with
            teams := setKV room.teams newKey newTeam
            adminUid := adminUid' }

/-! ## Association-list lemmas -/

theorem lookupKV_setKV_self {β : Type} (l : List (String × β)) (k : String)
    (v : β) : lookupKV (setKV l k v) k = some v := by
  induction l with
  | nil => simp [setKV, lookupKV]
  | cons hd tl ih =>
    obtain ⟨k', v'⟩ := hd
    by_cases h : k' = k
    · simp [setKV, h, lookupKV]
    · simp [setKV, h, lookupKV, ih]

theorem lookupKV_setKV_ne {β : Type} (l : List (String × β)) (k k' : String)
    (v : β) (h : k' ≠ k) : lookupKV (setKV l k v) k' = lookupKV l k' := by
  induction l with
  | nil => simp [setKV, lookupKV, Ne.symm h]
  | cons hd tl ih =>
    obtain ⟨k₀, v₀⟩ := hd
    by_cases h0 : k₀ = k
    · subst h0
      simp [setKV, lookupKV, Ne.symm h]
    · by_cases h1 : k₀ = k'
      · subst h1
        simp [setKV, h0, lookupKV]
      · simp [setKV, h0, lookupKV, h1, ih]

theorem mem_setKV {β : Type} (l : List (String × β)) (k : String) (v : β) :
    ∀ kv ∈ setKV l k v, kv ∈ l ∨ kv = (k, v) := by
  induction l with
  | nil => simp [setKV]
  | cons hd tl ih =>
    intro kv hkv
    obtain ⟨k', v'⟩ := hd
    by_cases h : k' = k
    · simp only [setKV, if_pos h, List.mem_cons] at hkv
      rcases hkv with h1 | h1
      · right; exact h1
      · left; exact List.mem_cons_of_mem _ h1
    · simp only [setKV, if_neg h, List.mem_cons] at hkv
      rcases hkv with h1 | h1
      · left; exact h1 ▸ List.mem_cons_self _ _
      · rcases ih kv h1 with h2 | h2
        · left; exact List.mem_cons_of_mem _ h2
        · right; exact h2

theorem lookupKV_mem {β : Type} (l : List (String × β)) (k : String) (v : β)
    (h : lookupKV l k = some v) : (k, v) ∈ l := by
  induction l with
  | nil => simp [lookupKV] at h
  | cons hd tl ih =>
    obtain ⟨k', v'⟩ := hd
    by_cases h0 : k' = k
    · subst h0
      have hv : v' = v := by simpa [lookupKV] using h
      subst hv
      exact List.mem_cons_self _ _
    · simp only [lookupKV, if_neg h0] at h
      exact List.mem_cons_of_mem _ (ih h)

/-! ## C7: scoring engine -/

/-- **C7**: for every season player and coefficients, `battingScore` is the
plain sum `runs + strikeRate + average + fours + sixes`; `bowlingScore` is
`CF1 * wickets` plus `CF2 / economy` only when `economy > 0` (an economy of 0
contributes nothing instead of dividing by zero); `allRounderScore` is
`CF3 * (battingScore + bowlingScore)`; missing stat inputs coerce to 0; and
the Scenario-A instance (CF1=30, CF2=2000, CF3=1, runs=500, sr=140, avg=45,
fours=40, sixes=20, wickets=10, econ=8) yields scores (745, 550, 1295). -/
theorem scoring_spec :
    (∀ CF1 CF2 CF3 runs avg sr fours sixes wickets bavg econ bsr : ℚ,
      ∀ nm : String,
      scoreSeasonPlayer CF1 CF2 CF3
        ⟨nm, ⟨some runs, some avg, some sr, some fours, some sixes⟩,
             ⟨some wickets, some bavg, some econ, some bsr⟩⟩ =
        ⟨runs + sr + avg + fours + sixes,
         CF1 * wickets + (if 0 < econ then CF2 / econ else 0),
         CF3 * ((runs + sr + avg + fours + sixes) +
           (CF1 * wickets + (if 0 < econ then CF2 / econ else 0)))⟩) ∧
    (∀ CF1 CF2 CF3 wickets : ℚ, ∀ nm : String,
      scoreSeasonPlayer CF1 CF2 CF3
        ⟨nm, ⟨none, none, none, none, none⟩, ⟨some wickets, none, some 0, none⟩⟩ =
        ⟨0, CF1 * wickets, CF3 * (0 + CF1 * wickets)⟩) ∧
    scoreSeasonPlayer 30 2000 1
      ⟨"A", ⟨some 500, some 45, some 140, some 40, some 20⟩,
            ⟨some 10, some 20, some 8, some 18⟩⟩ = ⟨745, 550, 1295⟩ := by
  refine ⟨?_, ?_, ?_⟩
  · intro CF1 CF2 CF3 runs avg sr fours sixes wickets bavg econ bsr nm
    simp [scoreSeasonPlayer, safeNum]
  · intro CF1 CF2 CF3 wickets nm
    simp [scoreSeasonPlayer, safeNum]
  · simp only [scoreSeasonPlayer, safeNum, Option.getD_some]
    norm_num

/-! ## C6: early-termination check -/

/-- The claim's iff fails when no team exists: both "every team…" conditions
hold vacuously for an empty team map, yet the check keeps the auction
`running` rather than ending it. -/
theorem computeFinal_empty_counterexample :
    (∀ kv ∈ ([] : List (String × Team)), kv.2.purseRemainingLakhs < 50) ∧
    (∀ kv ∈ ([] : List (String × Team)), 25 ≤ kv.2.playersBought.length) ∧
    computeFinalAuctionStatus .running [] ≠ .finished := by
  refine ⟨by simp, by simp, by decide⟩

/-- **C6** (amended): when at least one team exists, the early-termination
check ends a would-continue auction iff every team's remaining purse is below
50 lakhs AND every team has at least 25 bought players; with no teams the
check leaves the auction `running`. -/
theorem computeFinal_spec :
    (∀ teams : List (String × Team), teams ≠ [] →
      (computeFinalAuctionStatus .running teams = .finished ↔
        (∀ kv ∈ teams, kv.2.purseRemainingLakhs < 50) ∧
        (∀ kv ∈ teams, 25 ≤ kv.2.playersBought.length))) ∧
    computeFinalAuctionStatus .running [] = .running := by
  constructor
  · intro teams h
    have hlen : ¬ ((teams.map Prod.snd).length = 0) := by
      simp [List.length_eq_zero, h]
    have hA : (((teams.map Prod.snd).all
        fun t => decide (t.purseRemainingLakhs < 50)) = true) ↔
        (∀ kv ∈ teams, kv.2.purseRemainingLakhs < 50) := by
      rw [List.all_eq_true]
      constructor
      · intro hall kv hkv
        simpa using hall _ (List.mem_map.mpr ⟨kv, hkv, rfl⟩)
      · intro hp t ht
        rcases List.mem_map.mp ht with ⟨kv, hkv, rfl⟩
        simpa using hp kv hkv
    have hB : (((teams.map Prod.snd).all
        fun t => decide (t.playersBought.length ≥ 25)) = true) ↔
        (∀ kv ∈ teams, 25 ≤ kv.2.playersBought.length) := by
      rw [List.all_eq_true]
      constructor
      · intro hall kv hkv
        simpa using hall _ (List.mem_map.mpr ⟨kv, hkv, rfl⟩)
      · intro hp t ht
        rcases List.mem_map.mp ht with ⟨kv, hkv, rfl⟩
        simpa using hp kv hkv
    unfold computeFinalAuctionStatus
    simp only [if_neg hlen]
    by_cases hpa : ∀ kv ∈ teams, kv.2.purseRemainingLakhs < 50
    · by_cases hpb : ∀ kv ∈ teams, 25 ≤ kv.2.playersBought.length
      · have hc : (((teams.map Prod.snd).all
            fun t => decide (t.purseRemainingLakhs < 50)) &&
            ((teams.map Prod.snd).all
            fun t => decide (t.playersBought.length ≥ 25))) = true := by
          rw [Bool.and_eq_true, hA, hB]; exact ⟨hpa, hpb⟩
        rw [if_pos hc]
        exact ⟨fun _ => ⟨hpa, hpb⟩, fun _ => rfl⟩
      · have hc : ¬ ((((teams.map Prod.snd).all
            fun t => decide (t.purseRemainingLakhs < 50)) &&
            ((teams.map Prod.snd).all
            fun t => decide (t.playersBought.length ≥ 25))) = true) := by
          rw [Bool.and_eq_true, hA, hB]; tauto
        rw [if_neg hc, if_neg (by decide)]
        constructor
        · intro hfin; exact absurd hfin (by decide)
        · rintro ⟨_, h2⟩; exact absurd h2 hpb
    · have hc : ¬ ((((teams.map Prod.snd).all
          fun t => decide (t.purseRemainingLakhs < 50)) &&
          ((teams.map Prod.snd).all
          fun t => decide (t.playersBought.length ≥ 25))) = true) := by
        rw [Bool.and_eq_true, hA, hB]; tauto
      rw [if_neg hc, if_neg (by decide)]
      constructor
      · intro hfin; exact absurd hfin (by decide)
      · rintro ⟨h1, _⟩; exact absurd h1 hpa
  · rfl

/-- Witness for `computeFinal_spec`: one team with 40 lakhs left and an empty
squad does not end the auction early. -/
theorem computeFinal_spec_witness :
    (computeFinalAuctionStatus .running
        [("t1", ⟨"A", "#EF4444", 40, 120, ⟨0, 0, 0, 0⟩, some "u", some 0, []⟩)] =
        .finished ↔
      (∀ kv ∈ [("t1", (⟨"A", "#EF4444", 40, 120, ⟨0, 0, 0, 0⟩, some "u", some 0,
          []⟩ : Team))], kv.2.purseRemainingLakhs < 50) ∧
      (∀ kv ∈ [("t1", (⟨"A", "#EF4444", 40, 120, ⟨0, 0, 0, 0⟩, some "u", some 0,
          []⟩ : Team))], 25 ≤ kv.2.playersBought.length)) :=
  computeFinal_spec.1 _ (by decide)

/-! ## C5: pointer advance -/

/-- The `(currentSetIndex, currentPlayerIndex)` pointer of a room. -/
def pointerOf (r : Room) : Nat × Nat :=
  (r.auction.currentSetIndex, r.auction.currentPlayerIndex)

/-- Lexicographic order on the pointer. -/
def lexLe (p q : Nat × Nat) : Prop :=
  p.1 < q.1 ∨ (p.1 = q.1 ∧ p.2 ≤ q.2)

theorem lexLe_refl (p : Nat × Nat) : lexLe p p := Or.inr ⟨rfl, le_refl _⟩

theorem lexLe_trans {p q r : Nat × Nat} (h1 : lexLe p q) (h2 : lexLe q r) :
    lexLe p r := by
  rcases h1 with h1 | ⟨h1, h1'⟩ <;> rcases h2 with h2 | ⟨h2, h2'⟩
  · exact Or.inl (h1.trans h2)
  · exact Or.inl (h2 ▸ h1)
  · exact Or.inl (h1 ▸ h2)
  · exact Or.inr ⟨h1.trans h2, h1'.trans h2'⟩

/-- One pointer advance, by either the result-window auto-advance
(`runAdvance`) or the admin skip (`handleNextPlayer`). -/
inductive AdvStep : Room → Room → Prop where
  | auto : ∀ (r : Room) (now : ℤ) (r' : Room),
      runAdvance r now = some r' → AdvStep r r'
  | adminSkip : ∀ (r : Room) (now : ℤ) (r' : Room),
      handleNextPlayer r now = some r' → AdvStep r r'

theorem advanceToNextPlayerFields_lexLe (a : AuctionState) (h : a.sets ≠ []) :
    lexLe (a.currentSetIndex, a.currentPlayerIndex)
      ((advanceToNextPlayerFields a).nextSetIndex,
       (advanceToNextPlayerFields a).nextPlayerIndex) := by
  by_cases h1 :
      a.currentPlayerIndex + 1 < (a.sets.getD a.currentSetIndex []).length
  · simp only [advanceToNextPlayerFields, if_neg h, if_pos h1]
    exact Or.inr ⟨rfl, Nat.le_succ _⟩
  · by_cases h2 : a.currentSetIndex + 1 < a.sets.length
    · simp only [advanceToNextPlayerFields, if_neg h, if_neg h1, if_pos h2]
      exact Or.inl (Nat.lt_succ_self _)
    · simp only [advanceToNextPlayerFields, if_neg h, if_neg h1, if_neg h2]
      exact Or.inr ⟨rfl, le_refl _⟩

theorem runAdvance_pointer (room : Room) (now : ℤ) (r' : Room)
    (h : runAdvance room now = some r') :
    r'.auction.sets = room.auction.sets ∧
    r'.auction.currentSetIndex =
      (advanceToNextPlayerFields room.auction).nextSetIndex ∧
    r'.auction.currentPlayerIndex =
      (advanceToNextPlayerFields room.auction).nextPlayerIndex := by
  simp only [runAdvance] at h
  split at h
  · exact absurd h (by simp)
  · obtain rfl := Option.some.inj h
    exact ⟨rfl, rfl, rfl⟩

theorem handleNextPlayer_pointer (room : Room) (now : ℤ) (r' : Room)
    (h : handleNextPlayer room now = some r') :
    r'.auction.sets = room.auction.sets ∧
    ((r'.auction.currentSetIndex = room.auction.currentSetIndex ∧
      r'.auction.currentPlayerIndex = room.auction.currentPlayerIndex) ∨
     (r'.auction.currentSetIndex =
        (advanceToNextPlayerFields room.auction).nextSetIndex ∧
      r'.auction.currentPlayerIndex =
        (advanceToNextPlayerFields room.auction).nextPlayerIndex)) := by
  simp only [handleNextPlayer] at h
  split at h
  · exact absurd h (by simp)
  · split at h
    · obtain rfl := Option.some.inj h
      exact ⟨rfl, Or.inl ⟨rfl, rfl⟩⟩
    · obtain rfl := Option.some.inj h
      exact ⟨rfl, Or.inr ⟨rfl, rfl⟩⟩

theorem advStep_sets {r r' : Room} (h : AdvStep r r') :
    r'.auction.sets = r.auction.sets := by
  cases h with
  | auto x y hq => exact (runAdvance_pointer _ _ _ hq).1
  | adminSkip x y hq => exact (handleNextPlayer_pointer _ _ _ hq).1

theorem advStep_lexLe {r r' : Room} (h : AdvStep r r')
    (hne : r.auction.sets ≠ []) : lexLe (pointerOf r) (pointerOf r') := by
  cases h with
  | auto x y hq =>
    obtain ⟨_, h1, h2⟩ := runAdvance_pointer _ _ _ hq
    unfold pointerOf
    rw [h1, h2]
    exact advanceToNextPlayerFields_lexLe r.auction hne
  | adminSkip x y hq =>
    obtain ⟨_, hp⟩ := handleNextPlayer_pointer _ _ _ hq
    rcases hp with ⟨h1, h2⟩ | ⟨h1, h2⟩
    · unfold pointerOf
      rw [h1, h2]
      exact lexLe_refl _
    · unfold pointerOf
      rw [h1, h2]
      exact advanceToNextPlayerFields_lexLe r.auction hne

theorem advSeq_lexLe (r r' : Room) (h : Relation.ReflTransGen AdvStep r r') :
    r.auction.sets ≠ [] → lexLe (pointerOf r) (pointerOf r') := by
  induction h using Relation.ReflTransGen.head_induction_on with
  | refl => intro _; exact lexLe_refl _
  | head hstep hrest ih =>
    intro hne
    exact lexLe_trans (advStep_lexLe hstep hne)
      (ih ((advStep_sets hstep).symm ▸ hne))

/-- **C5**: with a non-empty sets list, the pointer advance keeps the same set
when another player remains there, else moves to the start of the next set
when one exists, else marks the auction finished; with an empty sets list the
status is finished; and across any sequence of advances (auto-advances or
admin skips) the `(currentSetIndex, currentPlayerIndex)` pair never
lexicographically decreases. -/
theorem advance_pointer_spec :
    (∀ a : AuctionState, a.sets ≠ [] →
      (a.currentPlayerIndex + 1 < (a.sets.getD a.currentSetIndex []).length →
        advanceToNextPlayerFields a =
          ⟨a.currentSetIndex, a.currentPlayerIndex + 1, a.status⟩) ∧
      (¬ (a.currentPlayerIndex + 1 <
            (a.sets.getD a.currentSetIndex []).length) →
        a.currentSetIndex + 1 < a.sets.length →
        advanceToNextPlayerFields a = ⟨a.currentSetIndex + 1, 0, a.status⟩) ∧
      (¬ (a.currentPlayerIndex + 1 <
            (a.sets.getD a.currentSetIndex []).length) →
        ¬ (a.currentSetIndex + 1 < a.sets.length) →
        advanceToNextPlayerFields a =
          ⟨a.currentSetIndex, a.currentPlayerIndex, .finished⟩)) ∧
    (∀ a : AuctionState, a.sets = [] →
      (advanceToNextPlayerFields a).nextStatus = .finished) ∧
    (∀ r r' : Room, Relation.ReflTransGen AdvStep r r' →
      r.auction.sets ≠ [] → lexLe (pointerOf r) (pointerOf r')) := by
  refine ⟨?_, ?_, advSeq_lexLe⟩
  · intro a hne
    refine ⟨?_, ?_, ?_⟩
    · intro h1
      unfold advanceToNextPlayerFields
      rw [if_neg hne, if_pos h1]
    · intro h1 h2
      unfold advanceToNextPlayerFields
      rw [if_neg hne, if_neg h1, if_pos h2]
    · intro h1 h2
      unfold advanceToNextPlayerFields
      rw [if_neg hne, if_neg h1, if_neg h2]
  · intro a he
    unfold advanceToNextPlayerFields
    rw [if_pos he]

/-- Witness for `advance_pointer_spec` at a concrete two-player set and a
trivial advance sequence. -/
theorem advance_pointer_spec_witness :
    advanceToNextPlayerFields
        ⟨[["p1", "p2"]], 0, 0, none, none, none, .running, [], none, none⟩ =
      ⟨0, 1, .running⟩ ∧
    lexLe
      (pointerOf ⟨[], [], ⟨[["p1"]], 0, 0, none, none, none, .running, [],
        none, none⟩, none⟩)
      (pointerOf ⟨[], [], ⟨[["p1"]], 0, 0, none, none, none, .running, [],
        none, none⟩, none⟩) :=
  ⟨(advance_pointer_spec.1
      ⟨[["p1", "p2"]], 0, 0, none, none, none, .running, [], none, none⟩
      (by decide)).1 (by decide),
   advance_pointer_spec.2.2 _ _ Relation.ReflTransGen.refl (by decide)⟩

/-! ## Team layout / squad assembly (`team-setup/page.tsx`) -/

inductive Role
  | BAT
  | AR
  | BOWL
deriving DecidableEq, Repr

/-- The normalized slot grid (`BAT[6]`, `AR[3]`, `BOWL[6]`); a slot holds a
player id or `null`. -/
structure Slots where
  BAT : List (Option String)
  AR : List (Option String)
  BOWL : List (Option String)
deriving DecidableEq, Repr

structure TeamLayout where
  finalized : Bool
  slots : Slots
deriving DecidableEq, Repr

/-- Write to `slots/{role}/{index}` (out-of-range indices are not clicked in
the UI; `List.set` leaves them unchanged). -/
def setRoleSlot (s : Slots) : Role → Nat → Option String → Slots
  | .BAT, idx, v => { s with BAT := s.BAT.set idx v }
  | .AR, idx, v => { s with AR := s.AR.set idx v }
  | .BOWL, idx, v => { s with BOWL := s.BOWL.set idx v }

/-- All slots in role order BAT, AR, BOWL. -/
def allSlots (s : Slots) : List (Option String) := s.BAT ++ s.AR ++ s.BOWL

/-- `[...batSlots, ...arSlots, ...bowlSlots].filter((p) => p).length`. -/
def filledCount (s : Slots) : Nat :=
  ((allSlots s).filter fun o => jsTruthyStr o).length

/-- `handleAssignToSlot`: a raw slot write, refused once the layout is
finalized. -/
def handleAssignToSlot (layout : TeamLayout) (role : Role) (idx : Nat)
    (playerId : Option String) : Option TeamLayout :=
  if layout.finalized then none
  else some { layout with slots := setRoleSlot layout.slots role idx playerId }

/-- Membership in the `assignedPlayerIds` set (only truthy slot entries are
added). -/
def isAlreadyAssigned (s : Slots) (pid : String) : Bool :=
  (pid ≠ "" : Bool) && (allSlots s).contains (some pid)

/-- The page's slot-assignment flow: clicking a bought player selects it only
when the layout is unfinalized and the player is not already placed; clicking
a slot then assigns the selected player via `handleAssignToSlot`. -/
def uiAssignSelected (layout : TeamLayout) (role : Role) (idx : Nat)
    (pid : String) : Option TeamLayout :=
  if layout.finalized then none
  else if pid = "" then none
  else if isAlreadyAssigned layout.slots pid then none
  else handleAssignToSlot layout role idx (some pid)

/-- `handleFinalize`: requires `filledCount ≥ min(15, boughtCount)`; on
success writes `finalized = true`. -/
def handleFinalize (layout : TeamLayout) (boughtCount : Nat) :
    Option TeamLayout :=
  let requiredSlots := min 15 boughtCount
  if filledCount layout.slots < requiredSlots then none
  else some { layout with finalized := true }

/-- Number of slots holding a given (truthy) player id. -/
def occCount (s : Slots) (pid : String) : Nat := (allSlots s).count (some pid)

/-- P6: each bought player occupies at most one slot across BAT/AR/BOWL. -/
def UniquePlacement (s : Slots) : Prop :=
  ∀ pid : String, pid ≠ "" → occCount s pid ≤ 1

theorem count_set_le_succ (l : List (Option String)) (i : Nat)
    (v x : Option String) : (l.set i v).count x ≤ l.count x + 1 := by
  induction l generalizing i with
  | nil => simp
  | cons a t ih =>
    cases i with
    | zero =>
      simp only [List.set, List.count_cons]
      by_cases h1 : v = x <;> by_cases h2 : a = x
      · simp [h1, h2]
      · simp [h1, h2]
      · simp [h1, h2]
        omega
      · simp [h1, h2]
    | succ n =>
      simp only [List.set, List.count_cons]
      have := ih n
      by_cases h2 : a = x
      · simp [h2]
        omega
      · simp [h2]
        omega

theorem count_set_le_of_ne (l : List (Option String)) (i : Nat)
    (v x : Option String) (h : v ≠ x) : (l.set i v).count x ≤ l.count x := by
  induction l generalizing i with
  | nil => simp
  | cons a t ih =>
    cases i with
    | zero =>
      simp only [List.set, List.count_cons]
      by_cases h2 : a = x
      · simp [h, h2]
      · simp [h, h2]
    | succ n =>
      simp only [List.set, List.count_cons]
      have := ih n
      by_cases h2 : a = x
      · simp [h2]
        omega
      · simp [h2]
        omega

theorem uniquePlacement_assign (s : Slots) (role : Role) (idx : Nat)
    (pid : String) (hu : UniquePlacement s) (hpid : pid ≠ "")
    (hmem : some pid ∉ allSlots s) :
    UniquePlacement (setRoleSlot s role idx (some pid)) := by
  have hmemB : some pid ∉ s.BAT := fun hx =>
    hmem (List.mem_append.mpr (Or.inl (List.mem_append.mpr (Or.inl hx))))
  have hmemA : some pid ∉ s.AR := fun hx =>
    hmem (List.mem_append.mpr (Or.inl (List.mem_append.mpr (Or.inr hx))))
  have hmemW : some pid ∉ s.BOWL := fun hx =>
    hmem (List.mem_append.mpr (Or.inr hx))
  have hzB := List.count_eq_zero.mpr hmemB
  have hzA := List.count_eq_zero.mpr hmemA
  have hzW := List.count_eq_zero.mpr hmemW
  intro q hq
  by_cases hqp : q = pid
  · subst hqp
    unfold occCount allSlots
    cases role with
    | BAT =>
      simp only [setRoleSlot, List.count_append]
      have := count_set_le_succ s.BAT idx (some q) (some q)
      omega
    | AR =>
      simp only [setRoleSlot, List.count_append]
      have := count_set_le_succ s.AR idx (some q) (some q)
      omega
    | BOWL =>
      simp only [setRoleSlot, List.count_append]
      have := count_set_le_succ s.BOWL idx (some q) (some q)
      omega
  · have hne : (some pid : Option String) ≠ some q := by
      simp [Ne.symm hqp]
    have h1 := hu q hq
    unfold occCount allSlots at h1 ⊢
    cases role with
    | BAT =>
      simp only [setRoleSlot, List.count_append] at h1 ⊢
      have := count_set_le_of_ne s.BAT idx (some pid) (some q) hne
      omega
    | AR =>
      simp only [setRoleSlot, List.count_append] at h1 ⊢
      have := count_set_le_of_ne s.AR idx (some pid) (some q) hne
      omega
    | BOWL =>
      simp only [setRoleSlot, List.count_append] at h1 ⊢
      have := count_set_le_of_ne s.BOWL idx (some pid) (some q) hne
      omega

theorem uniquePlacement_clear (s : Slots) (role : Role) (idx : Nat)
    (hu : UniquePlacement s) :
    UniquePlacement (setRoleSlot s role idx none) := by
  intro q hq
  have h1 := hu q hq
  have hne : (none : Option String) ≠ some q := by simp
  unfold occCount allSlots at h1 ⊢
  cases role with
  | BAT =>
    simp only [setRoleSlot, List.count_append] at h1 ⊢
    have := count_set_le_of_ne s.BAT idx none (some q) hne
    omega
  | AR =>
    simp only [setRoleSlot, List.count_append] at h1 ⊢
    have := count_set_le_of_ne s.AR idx none (some q) hne
    omega
  | BOWL =>
    simp only [setRoleSlot, List.count_append] at h1 ⊢
    have := count_set_le_of_ne s.BOWL idx none (some q) hne
    omega

/-- A 6+3+6 grid with 10 filled slots (Scenario E, before). -/
def slotsTenFilled : Slots :=
  ⟨[some "p1", some "p2", some "p3", some "p4", some "p5", some "p6"],
   [some "p7", some "p8", some "p9"],
   [some "p10", none, none, none, none, none]⟩

/-- A 6+3+6 grid with 12 filled slots (Scenario E, after). -/
def slotsTwelveFilled : Slots :=
  ⟨[some "p1", some "p2", some "p3", some "p4", some "p5", some "p6"],
   [some "p7", some "p8", some "p9"],
   [some "p10", some "p11", some "p12", none, none, none]⟩

/-- The empty 6+3+6 grid. -/
def emptySlots : Slots :=
  ⟨List.replicate 6 none, List.replicate 3 none, List.replicate 6 none⟩

/-- **C8**: finalization succeeds iff the filled-slot count is at least
`min(15, boughtCount)`, and then only writes `finalized := true`; a rejected
finalize mutates nothing (`none`); slot assignment performs no write once
finalized; a team with 12 bought players is rejected at 10 filled slots and
accepted at 12. -/
theorem finalize_spec :
    (∀ (layout : TeamLayout) (boughtCount : Nat),
      (handleFinalize layout boughtCount).isSome = true ↔
        min 15 boughtCount ≤ filledCount layout.slots) ∧
    (∀ (layout : TeamLayout) (boughtCount : Nat) (layout' : TeamLayout),
      handleFinalize layout boughtCount = some layout' →
      layout'.finalized = true ∧ layout'.slots = layout.slots) ∧
    (∀ (layout : TeamLayout) (role : Role) (idx : Nat) (pid : Option String),
      layout.finalized = true →
      handleAssignToSlot layout role idx pid = none) ∧
    handleFinalize ⟨false, slotsTenFilled⟩ 12 = none ∧
    (handleFinalize ⟨false, slotsTwelveFilled⟩ 12).isSome = true := by
  refine ⟨?_, ?_, ?_, by decide, by decide⟩
  · intro layout bought
    by_cases h : filledCount layout.slots < min 15 bought
    · simp only [handleFinalize, if_pos h, Option.isSome_none]
      constructor
      · intro hf; cases hf
      · intro hle; omega
    · simp only [handleFinalize, if_neg h, Option.isSome_some]
      constructor
      · intro _; omega
      · intro _; trivial
  · intro layout bought layout' h
    simp only [handleFinalize] at h
    split at h
    · exact absurd h (by simp)
    · obtain rfl := Option.some.inj h
      exact ⟨rfl, rfl⟩
  · intro layout role idx pid h
    simp only [handleAssignToSlot, h, if_true]

/-- Witness for `finalize_spec` at the Scenario-E layouts. -/
theorem finalize_spec_witness :
    ((handleFinalize ⟨false, slotsTwelveFilled⟩ 12).isSome = true ↔
      min 15 12 ≤ filledCount slotsTwelveFilled) ∧
    ((⟨true, slotsTwelveFilled⟩ : TeamLayout).finalized = true ∧
      (⟨true, slotsTwelveFilled⟩ : TeamLayout).slots = slotsTwelveFilled) ∧
    handleAssignToSlot ⟨true, slotsTwelveFilled⟩ .BAT 0 (some "q") = none :=
  ⟨finalize_spec.1 ⟨false, slotsTwelveFilled⟩ 12,
   finalize_spec.2.1 ⟨false, slotsTwelveFilled⟩ 12 ⟨true, slotsTwelveFilled⟩
     (by decide),
   finalize_spec.2.2.1 ⟨true, slotsTwelveFilled⟩ .BAT 0 (some "q") rfl⟩

/-- **C9**: within an unfinalized layout, both the page's slot-assignment
flow (selection of an unplaced bought player, then a slot click) and the
slot-clear operation preserve the invariant that every player id occupies at
most one slot across BAT/AR/BOWL. -/
theorem slot_uniqueness_spec :
    (∀ (layout : TeamLayout) (role : Role) (idx : Nat) (pid : String)
      (layout' : TeamLayout),
      uiAssignSelected layout role idx pid = some layout' →
      UniquePlacement layout.slots → UniquePlacement layout'.slots) ∧
    (∀ (layout : TeamLayout) (role : Role) (idx : Nat) (layout' : TeamLayout),
      handleAssignToSlot layout role idx none = some layout' →
      UniquePlacement layout.slots → UniquePlacement layout'.slots) := by
  constructor
  · intro layout role idx pid layout' h hu
    by_cases hfin : layout.finalized
    · simp [uiAssignSelected, hfin] at h
    · by_cases hpid : pid = ""
      · simp [uiAssignSelected, hfin, hpid] at h
      · by_cases hass : isAlreadyAssigned layout.slots pid
        · simp [uiAssignSelected, hfin, hpid, hass] at h
        · have hmem : some pid ∉ allSlots layout.slots := by
            intro hm
            apply hass
            simp [isAlreadyAssigned, hpid]
            exact hm
          simp [uiAssignSelected, handleAssignToSlot, hfin, hpid, hass] at h
          subst h
          exact uniquePlacement_assign layout.slots role idx pid hu hpid hmem
  · intro layout role idx layout' h hu
    by_cases hfin : layout.finalized
    · simp [handleAssignToSlot, hfin] at h
    · simp [handleAssignToSlot, hfin] at h
      subst h
      exact uniquePlacement_clear layout.slots role idx hu

/-- Witness for `slot_uniqueness_spec`: assigning the first player into the
empty grid yields a layout where every player occupies at most one slot. -/
theorem slot_uniqueness_spec_witness :
    UniquePlacement (setRoleSlot emptySlots .BAT 0 (some "a1")) :=
  slot_uniqueness_spec.1 ⟨false, emptySlots⟩ .BAT 0 "a1"
    ⟨false, setRoleSlot emptySlots .BAT 0 (some "a1")⟩ (by decide)
    (fun pid _ => by
      have hz : occCount emptySlots pid = 0 :=
        List.count_eq_zero.mpr (by simp [allSlots, emptySlots])
      show occCount emptySlots pid ≤ 1
      omega)

/-! ## C3: custom bid -/

/-- For a positive amount, the source's `customLakhs % 50 !== 0` check is
exactly "not an integer multiple of 50". -/
theorem jsMod_fifty (q : ℚ) (hq : 0 < q) :
    jsMod q 50 = 0 ↔ ∃ k : ℤ, q = 50 * k := by
  have h50 : (0 : ℚ) < q / 50 := by positivity
  unfold jsMod jsTrunc
  rw [if_neg (not_lt.mpr h50.le)]
  constructor
  · intro h
    exact ⟨⌊q / 50⌋, by linarith⟩
  · rintro ⟨k, rfl⟩
    have hk : (50 : ℚ) * (k : ℚ) / 50 = (k : ℚ) :=
      mul_div_cancel_left₀ _ (by norm_num)
    rw [hk, Int.floor_intCast]
    ring

/-- Positivity combined with the remainder check is "positive multiple of
50". -/
theorem pos_mod_fifty (q : ℚ) :
    (0 < q ∧ jsMod q 50 = 0) ↔ ∃ k : ℤ, 0 < k ∧ q = 50 * k := by
  constructor
  · rintro ⟨hq, hm⟩
    obtain ⟨k, rfl⟩ := (jsMod_fifty q hq).mp hm
    refine ⟨k, ?_, rfl⟩
    by_contra hk
    push_neg at hk
    have : (k : ℚ) ≤ 0 := by exact_mod_cast hk
    nlinarith
  · rintro ⟨k, hk, rfl⟩
    have hkq : (0 : ℚ) < (k : ℚ) := by exact_mod_cast hk
    have hq : (0 : ℚ) < 50 * (k : ℚ) := by nlinarith
    exact ⟨hq, (jsMod_fifty _ hq).mpr ⟨k, rfl⟩⟩

section CustomBid

set_option maxHeartbeats 1600000

/-- **C3**: a custom bid is committed iff every check passes — the amount
(after display-unit conversion to lakhs) is a positive multiple of 50, the
auction is running, the deadline has not passed, the caller is not the
current highest bidder and not effectively sat out, the amount strictly
exceeds the currently known highest bid (base price when none), and the
amount does not exceed the caller's remaining purse; a failed check performs
no write (`none`), and a successful one writes exactly the new bid fields. -/
theorem custom_bid_spec (room : Room) (tid : String) (n : ℚ)
    (showCr : Bool) (basePriceLakhs : ℚ) (pid : String) (now : ℤ)
    (team : Team) (htid : tid ≠ "") (hpid : pid ≠ "")
    (hteam : lookupKV room.teams tid = some team) :
    ((handlePlaceCustomBid room tid (some n) showCr basePriceLakhs
        (some pid) now).isSome = true ↔
      ((∃ k : ℤ, 0 < k ∧ (if showCr then n * 100 else n) = 50 * k) ∧
       room.auction.status = .running ∧
       deadlinePassed room.auction.bidDeadlineTs now = false ∧
       room.auction.currentBidTeamId ≠ some tid ∧
       isEffectivelySatOut tid room.auction room.teams = false ∧
       room.auction.currentBidLakhs.getD basePriceLakhs <
         (if showCr then n * 100 else n) ∧
       (if showCr then n * 100 else n) ≤ team.purseRemainingLakhs)) ∧
    (∀ room', handlePlaceCustomBid room tid (some n) showCr basePriceLakhs
        (some pid) now = some room' →
      room'.auction.currentBidLakhs = some (if showCr then n * 100 else n) ∧
      room'.auction.currentBidTeamId = some tid ∧
      room'.auction.bidDeadlineTs = some (now + 30000) ∧
      room'.teams = room.teams ∧ room'.players = room.players) := by
  have heff : isEffectivelySatOut tid room.auction room.teams =
      (teamOutOfPurse (some team) || decide (tid ∈ room.auction.satOutTeams)) := by
    simp [isEffectivelySatOut, hteam]
  constructor
  · simp only [handlePlaceCustomBid, hteam]
    rw [if_neg hpid, if_neg htid]
    simp only [apply_ite Option.isSome, Option.isSome_none, Option.isSome_some]
    set q : ℚ := if showCr = true then n * 100 else n with hqdef
    have hmod := pos_mod_fifty q
    have hqn : 0 < q ↔ 0 < n := by
      rw [hqdef]
      cases showCr
      · simp
      · simp only [if_pos rfl, if_true]
        constructor
        · intro h; nlinarith
        · intro h; nlinarith
    split_ifs with h1 h2 h3 h4 h5 h6 h7 h8 h9
    · rw [false_iff]
      rintro ⟨-, -, -, -, he, -⟩
      rw [heff, h1] at he
      simp at he
    · rw [false_iff]
      rintro ⟨hk, -⟩
      have h0 := (hmod.mpr hk).1
      rw [hqn] at h0
      linarith
    · rw [false_iff]
      rintro ⟨hk, -⟩
      exact h3 (hmod.mpr hk).2
    · rw [false_iff]
      rintro ⟨-, -, -, hne, -⟩
      exact hne h4
    · rw [false_iff]
      rintro ⟨-, hs, -⟩
      exact h5 hs
    · rw [false_iff]
      rintro ⟨-, -, hd, -⟩
      rw [h6] at hd
      cases hd
    · rw [false_iff]
      rintro ⟨-, -, -, -, he, -⟩
      rw [h7] at he
      cases he
    · rw [false_iff]
      rintro ⟨-, -, -, -, -, hlt, -⟩
      linarith
    · rw [false_iff]
      rintro ⟨-, -, -, -, -, -, hle⟩
      rw [gt_iff_lt] at h9
      linarith
    · refine iff_of_true rfl
        ⟨hmod.mp ⟨hqn.mpr (not_le.mp h2), not_not.mp h3⟩, not_not.mp h5, ?_,
          h4, ?_, not_le.mp h8, not_lt.mp h9⟩
      · revert h6
        cases deadlinePassed room.auction.bidDeadlineTs now <;> simp
      · revert h7
        cases isEffectivelySatOut tid room.auction room.teams <;> simp
  · intro room' h
    simp only [handlePlaceCustomBid, hteam] at h
    rw [if_neg hpid, if_neg htid] at h
    set q : ℚ := if showCr = true then n * 100 else n with hqdef
    split at h
    · exact absurd h (by simp)
    · split at h
      · exact absurd h (by simp)
      · split at h
        · exact absurd h (by simp)
        · split at h
          · exact absurd h (by simp)
          · split at h
            · exact absurd h (by simp)
            · split at h
              · exact absurd h (by simp)
              · split at h
                · exact absurd h (by simp)
                · split at h
                  · exact absurd h (by simp)
                  · split at h
                    · exact absurd h (by simp)
                    · obtain rfl := Option.some.inj h
                      exact ⟨rfl, rfl, rfl, rfl, rfl⟩

end CustomBid

/-- A team with 300 lakhs of purse remaining (Scenario C). -/
def teamC : Team :=
  ⟨"Chennai", "#EF4444", 300, 120, ⟨0, 0, 0, 0⟩, some "u1", some 0, []⟩

/-- A running auction on player `pX` (base price 200) with no bid yet. -/
def roomC : Room :=
  { teams := [("t1", teamC)]
    players := [("pX", ⟨"Xavier", 200, .in_auction, none, none⟩)]
    auction := ⟨[["pX"]], 0, 0, none, none, some 30000, .running, [], none, none⟩
    adminUid := some "u1" }

/-- Witness for `custom_bid_spec` (Scenario C): with 300 lakhs of purse a
custom bid of 350 is rejected with no write, and a bid of exactly 300 is
accepted. -/
theorem custom_bid_spec_witness :
    handlePlaceCustomBid roomC "t1" (some 350) false 200 (some "pX") 1000 =
      none ∧
    (handlePlaceCustomBid roomC "t1" (some 300) false 200 (some "pX")
      1000).isSome = true := by
  constructor
  · have h := (custom_bid_spec roomC "t1" 350 false 200 "pX" 1000 teamC
      (by decide) (by decide) (by decide)).1
    have hno : ¬ ((handlePlaceCustomBid roomC "t1" (some 350) false 200
        (some "pX") 1000).isSome = true) := by
      rw [h]
      rintro ⟨-, -, -, -, -, -, hle⟩
      simp only [teamC] at hle
      norm_num at hle
    cases ho : handlePlaceCustomBid roomC "t1" (some 350) false 200
        (some "pX") 1000 with
    | none => rfl
    | some r => exact absurd (by rw [ho]; rfl) hno
  · rw [(custom_bid_spec roomC "t1" 300 false 200 "pX" 1000 teamC (by decide)
      (by decide) (by decide)).1]
    refine ⟨⟨6, by norm_num, by norm_num⟩, rfl, by decide, by decide,
      by decide, ?_, ?_⟩
    · show (roomC.auction.currentBidLakhs.getD 200 : ℚ) < _
      simp only [roomC]
      norm_num
    · show (_ : ℚ) ≤ teamC.purseRemainingLakhs
      simp only [teamC]
      norm_num

/-! ## C2: timer settlement -/

/-- **C2**: when the timer settlement fires (status `running`, a non-zero
deadline that has passed, a current player that exists in the room): with a
winning bid `(tid, b)` and the winning team present, the single combined
update marks the player sold to `tid` at price `b`, debits that team's purse
by exactly `b`, appends `{name, priceLakhs}` to its `playersBought`, and sets
the sold result message; with no bid the player is marked unsold; in both
cases the bid fields, deadline and sat-out flags are cleared, status becomes
`showing_result`, and `resultUntilTs = now + 5000`. -/
theorem timer_settlement_spec (room : Room) (now d : ℤ) (pid : String)
    (player : Player)
    (hrun : room.auction.status = .running)
    (hd : room.auction.bidDeadlineTs = some d) (hd0 : d ≠ 0) (hdle : d ≤ now)
    (hpid : currentPlayerIdOf room.auction = some pid) (hpne : pid ≠ "")
    (hplayer : lookupKV room.players pid = some player) :
    (∀ tid b team, room.auction.currentBidTeamId = some tid → tid ≠ "" →
      room.auction.currentBidLakhs = some b →
      lookupKV room.teams tid = some team →
      ∃ room', doFinalize room now = some room' ∧
        lookupKV room'.players pid = some
          { player with
            status := .sold
            soldToTeamId := some tid
            soldPriceLakhs := some b } ∧
        lookupKV room'.teams tid = some
          { team with
            purseRemainingLakhs := team.purseRemainingLakhs - b
            playersBought := setKV team.playersBought pid ⟨player.name, b⟩ } ∧
        room'.auction.currentBidLakhs = none ∧
        room'.auction.currentBidTeamId = none ∧
        room'.auction.bidDeadlineTs = none ∧
        room'.auction.satOutTeams = [] ∧
        room'.auction.status = .showing_result ∧
        room'.auction.resultMessage = some (player.name ++ " sold to " ++
          team.name ++ " for " ++ toFixed2 (b / 100) ++ " Cr") ∧
        room'.auction.resultUntilTs = some (now + 5000)) ∧
    (winningBid room.auction = none →
      ∃ room', doFinalize room now = some room' ∧
        lookupKV room'.players pid = some { player with status := .unsold } ∧
        room'.teams = room.teams ∧
        room'.auction.currentBidLakhs = none ∧
        room'.auction.currentBidTeamId = none ∧
        room'.auction.bidDeadlineTs = none ∧
        room'.auction.satOutTeams = [] ∧
        room'.auction.status = .showing_result ∧
        room'.auction.resultMessage = some (player.name ++ " went unsold") ∧
        room'.auction.resultUntilTs = some (now + 5000)) := by
  have hguards : doFinalize room now =
      match winningBid room.auction with
      | some (tid, b) =>
        match lookupKV room.teams tid with
        | none => none
        | some team => some (soldUpdates room pid player tid team b now)
      | none => some (unsoldUpdates room pid player now) := by
    have hnl : ¬ (now < d) := not_lt.mpr hdle
    simp [doFinalize, hrun, hd, hpid, hplayer, hd0, hpne, hnl]
  constructor
  · intro tid b team hbt htid hb hteam
    have hwin : winningBid room.auction = some (tid, b) := by
      simp only [winningBid, hbt, hb]
      rw [if_neg htid]
    refine ⟨soldUpdates room pid player tid team b now, ?_, ?_, ?_, rfl, rfl,
      rfl, rfl, rfl, rfl, rfl⟩
    · rw [hguards, hwin]
      simp only [hteam]
    · exact lookupKV_setKV_self _ _ _
    · exact lookupKV_setKV_self _ _ _
  · intro hwin
    refine ⟨unsoldUpdates room pid player now, ?_, ?_, rfl, rfl, rfl, rfl,
      rfl, rfl, rfl, rfl⟩
    · rw [hguards, hwin]
    · exact lookupKV_setKV_self _ _ _

/-- A running auction whose deadline has passed, with a 300-lakh bid held by
team `t1` on player `pX`. -/
def roomT : Room :=
  { teams := [("t1", ⟨"Chennai", "#EF4444", 10000, 120, ⟨0, 0, 0, 0⟩,
      some "u1", some 0, []⟩)]
    players := [("pX", ⟨"Xavier", 200, .in_auction, none, none⟩)]
    auction := ⟨[["pX"]], 0, 0, some 300, some "t1", some 30000, .running, [],
      none, none⟩
    adminUid := some "u1" }

/-- Witness for `timer_settlement_spec`: the timer settlement sells `pX` to
`t1` and flips the auction into `showing_result`. -/
theorem timer_settlement_spec_witness :
    ∃ room', doFinalize roomT 50000 = some room' ∧
      (lookupKV room'.players "pX").map Player.status = some .sold ∧
      (lookupKV room'.teams "t1").map Team.purseRemainingLakhs =
        some (10000 - 300) ∧
      room'.auction.status = .showing_result := by
  obtain ⟨room', h1, h2, h3, -, -, -, -, h8, -, -⟩ :=
    (timer_settlement_spec roomT 50000 30000 "pX"
      ⟨"Xavier", 200, .in_auction, none, none⟩ rfl rfl (by decide) (by decide)
      rfl (by decide) rfl).1 "t1" 300
      ⟨"Chennai", "#EF4444", 10000, 120, ⟨0, 0, 0, 0⟩, some "u1", some 0, []⟩
      rfl (by decide) rfl rfl
  exact ⟨room', h1, by rw [h2]; rfl, by rw [h3]; rfl, h8⟩

/-! ## C10: team creation -/

theorem find_eq_some_split {p : String → Bool} {l : List String} {c : String}
    (h : l.find? p = some c) :
    p c = true ∧ ∃ pre suf, l = pre ++ c :: suf ∧ ∀ x ∈ pre, p x = false := by
  induction l with
  | nil => simp [List.find?] at h
  | cons a t ih =>
    rw [List.find?] at h
    cases hpa : p a with
    | true =>
      rw [hpa] at h
      obtain rfl := Option.some.inj h
      exact ⟨hpa, [], t, rfl, by simp⟩
    | false =>
      rw [hpa] at h
      obtain ⟨h1, pre, suf, rfl, h2⟩ := ih h
      refine ⟨h1, a :: pre, suf, rfl, ?_⟩
      intro x hx
      rcases List.mem_cons.mp hx with rfl | hx
      · exact hpa
      · exact h2 x hx

/-- **C10**: a successfully created team starts with
`purseRemainingLakhs = 10000`, `timeBankSeconds = 120` and zeroed slot
counters; its color is the first palette entry not already used by an
existing team (falling back to `"#FFFFFF"` when the whole palette is taken);
and the creator's uid becomes the room's `adminUid` exactly when no (truthy)
`adminUid` was set. -/
theorem create_team_spec (room : Room) (name : String) (uid : String)
    (key : String) (now : ℤ) (room' : Room)
    (h : handleCreateTeam room name (some uid) key now = some room') :
    ∃ newTeam : Team,
      lookupKV room'.teams key = some newTeam ∧
      newTeam.purseRemainingLakhs = 10000 ∧
      newTeam.timeBankSeconds = 120 ∧
      newTeam.slots = ⟨0, 0, 0, 0⟩ ∧
      newTeam.ownerUid = some uid ∧
      ((∃ pre suf, TEAM_COLORS = pre ++ newTeam.color :: suf ∧
         (∀ c ∈ pre, c ∈ room.teams.map fun kv => kv.2.color) ∧
         newTeam.color ∉ room.teams.map fun kv => kv.2.color) ∨
       ((∀ c ∈ TEAM_COLORS, c ∈ room.teams.map fun kv => kv.2.color) ∧
         newTeam.color = "#FFFFFF")) ∧
      room'.players = room.players ∧
      (room.adminUid = none → room'.adminUid = some uid) ∧
      (∀ a, room.adminUid = some a → a ≠ "" → room'.adminUid = some a) := by
  simp only [handleCreateTeam] at h
  split at h
  · exact absurd h (by simp)
  · split at h
    · exact absurd h (by simp)
    · split at h
      · exact absurd h (by simp)
      · obtain rfl := Option.some.inj h
        rename_i hname huid htaken
        refine ⟨_, lookupKV_setKV_self _ _ _, rfl, rfl, rfl, rfl, ?_, rfl,
          ?_, ?_⟩
        · dsimp only
          cases hfind : TEAM_COLORS.find? fun c =>
              ¬ (room.teams.map fun kv => kv.2.color).contains c with
          | none =>
            right
            rw [List.find?_eq_none] at hfind
            constructor
            · intro c hc
              have := hfind c hc
              simpa using this
            · simp
          | some c =>
            left
            obtain ⟨h1, pre, suf, heq, h2⟩ := find_eq_some_split hfind
            simp only [Option.getD_some]
            refine ⟨pre, suf, heq, ?_, ?_⟩
            · intro x hx
              have := h2 x hx
              simpa using this
            · simpa using h1
        · intro hnone
          simp [jsTruthyStr, hnone]
        · intro a ha hane
          simp [jsTruthyStr, ha, hane]

/-- The room state after the first team is created in an empty room. -/
def roomAfterFirstTeam : Room :=
  { teams := [("k1", ⟨"Alpha", "#EF4444", 10000, 120, ⟨0, 0, 0, 0⟩,
      some "u7", some 5, []⟩)]
    players := []
    auction := ⟨[], 0, 0, none, none, none, .not_started, [], none, none⟩
    adminUid := some "u7" }

/-- Witness for `create_team_spec`: the first team created in an empty room. -/
theorem create_team_spec_witness :
    ∃ newTeam : Team,
      lookupKV roomAfterFirstTeam.teams "k1" = some newTeam ∧
      newTeam.purseRemainingLakhs = 10000 := by
  obtain ⟨t, h1, h2, -⟩ := create_team_spec
    ⟨[], [], ⟨[], 0, 0, none, none, none, .not_started, [], none, none⟩, none⟩
    "Alpha" "u7" "k1" 5 roomAfterFirstTeam (by rfl)
  exact ⟨t, h1, h2⟩

/-! ## C1: settlement exactly-once -/

/-- A room immediately after a settlement: player `p1` was sold to the only
team `t1` for 300, the auction shows the result banner (`showing_result`),
and the bid / sat-out fields are cleared. -/
def roomBug : Room :=
  { teams := [("t1", ⟨"Alpha", "#EF4444", 9700, 120, ⟨0, 0, 0, 0⟩, some "u1",
      some 0, [("p1", ⟨"Alice", 300⟩)]⟩)]
    players := [("p1", ⟨"Alice", 200, .sold, some "t1", some 300⟩)]
    auction := ⟨[["p1"]], 0, 0, none, none, none, .showing_result, [],
      some "Alice sold to Alpha for 3.00 Cr", some 10000⟩
    adminUid := some "u1" }

/-- The timer trigger does follow the state-flip-first discipline: once the
status is no longer `running` it bails out with no write. -/
theorem doFinalize_bails_when_not_running (r : Room) (now : ℤ)
    (h : r.auction.status ≠ .running) : doFinalize r now = none := by
  unfold doFinalize
  rw [if_pos h]

/-- The single-active-bidder shortcut likewise bails out with no write once
the status is no longer `running`. -/
theorem autoSell_bails_when_not_running (r : Room) (now : ℤ)
    (h : r.auction.status ≠ .running) :
    autoSellToSingleActiveBidder r now = none := by
  unfold autoSellToSingleActiveBidder
  rw [if_pos h]

/-- **C1** (code bug): the all-sat-out settlement path of `handleSitOut`
performs no `running`-status re-check, unlike `doFinalize` and
`autoSellToSingleActiveBidder`.  Invoked while the auction is already in
`showing_result` (e.g. its UI guard raced a concurrent settlement), it
applies a second settlement to the already-sold player `p1`, flipping its
status from `sold` back to `unsold` — contradicting "at most one settlement
per player" and the one-way status transitions. -/
theorem sitout_double_settlement_bug :
    roomBug.auction.status = .showing_result ∧
    (lookupKV roomBug.players "p1").map Player.status = some .sold ∧
    ∃ r', handleSitOut roomBug "t1" 20000 = some r' ∧
      (lookupKV r'.players "p1").map Player.status = some .unsold := by
  refine ⟨rfl, rfl,
    unsoldUpdates roomBug "p1" ⟨"Alice", 200, .sold, some "t1", some 300⟩
      20000, ?_, rfl⟩
  rfl

/-! ## C4: purse non-negativity -/

/-- Every team's remaining purse is non-negative. -/
def PurseOK (teams : List (String × Team)) : Prop :=
  ∀ kv ∈ teams, 0 ≤ kv.2.purseRemainingLakhs

/-- The current bid, when present, belongs to an existing team and does not
exceed that team's remaining purse (established by the bid-accepting guards,
consumed by settlement). -/
def BidOK (room : Room) : Prop :=
  ∀ tid b, room.auction.currentBidTeamId = some tid →
    room.auction.currentBidLakhs = some b →
    ∃ t, lookupKV room.teams tid = some t ∧ b ≤ t.purseRemainingLakhs

def Inv (room : Room) : Prop := PurseOK room.teams ∧ BidOK room

theorem purseOK_setKV {teams : List (String × Team)} {k : String} {t : Team}
    (h : PurseOK teams) (ht : 0 ≤ t.purseRemainingLakhs) :
    PurseOK (setKV teams k t) := by
  intro kv hkv
  rcases mem_setKV teams k t kv hkv with h1 | rfl
  · exact h kv h1
  · exact ht

theorem winningBid_some {a : AuctionState} {tid : String} {b : ℚ}
    (h : winningBid a = some (tid, b)) :
    a.currentBidTeamId = some tid ∧ a.currentBidLakhs = some b := by
  unfold winningBid at h
  cases hbt : a.currentBidTeamId with
  | none =>
    rw [hbt] at h
    simp at h
  | some tid0 =>
    cases hbl : a.currentBidLakhs with
    | none =>
      rw [hbt, hbl] at h
      simp at h
    | some b0 =>
      rw [hbt, hbl] at h
      dsimp only at h
      split at h
      · exact absurd h (by simp)
      · have h2 := Option.some.inj h
        injection h2 with h3 h4
        subst h3
        subst h4
        exact ⟨rfl, rfl⟩

theorem inv_soldUpdates (room : Room) (pid : String) (player : Player)
    (tid : String) (team : Team) (b : ℚ) (now : ℤ) (hinv : Inv room)
    (hble : b ≤ team.purseRemainingLakhs) :
    Inv (soldUpdates room pid player tid team b now) := by
  constructor
  · exact purseOK_setKV hinv.1 (sub_nonneg.mpr hble)
  · intro tid' b' h1 h2
    simp [soldUpdates, settledAuction] at h1

theorem inv_unsoldUpdates (room : Room) (pid : String) (player : Player)
    (now : ℤ) (hinv : Inv room) :
    Inv (unsoldUpdates room pid player now) := by
  constructor
  · exact hinv.1
  · intro tid' b' h1 h2
    simp [unsoldUpdates, settledAuction] at h1

/-- One state transition of the auction room: any of the mutating handlers
applied by some client at some time, succeeding with a write.  Team creation
carries the store's guarantee that the generated push key is fresh. -/
inductive Step : Room → Room → Prop where
  | createTeam : ∀ (r : Room) (name : String) (uid : Option String)
      (key : String) (now : ℤ) (r' : Room),
      lookupKV r.teams key = none →
      handleCreateTeam r name uid key now = some r' → Step r r'
  | startAuction : ∀ (r : Room) (now : ℤ) (r' : Room),
      handleStartAuction r now = some r' → Step r r'
  | startBid : ∀ (r : Room) (tid : String) (base : ℚ) (pid : Option String)
      (now : ℤ) (r' : Room),
      handleStartBidding r tid base pid now = some r' → Step r r'
  | raiseBid : ∀ (r : Room) (tid : String) (inc base : ℚ)
      (pid : Option String) (now : ℤ) (r' : Room),
      handleRaiseBid r tid inc base pid now = some r' → Step r r'
  | customBid : ∀ (r : Room) (tid : String) (n : Option ℚ) (showCr : Bool)
      (base : ℚ) (pid : Option String) (now : ℤ) (r' : Room),
      handlePlaceCustomBid r tid n showCr base pid now = some r' → Step r r'
  | sitOut : ∀ (r : Room) (tid : String) (now : ℤ) (r' : Room),
      handleSitOut r tid now = some r' → Step r r'
  | useTimeBank : ∀ (r : Room) (tid : String) (now : ℤ) (r' : Room),
      handleUseTimeBank r tid now = some r' → Step r r'
  | finalizeTimer : ∀ (r : Room) (now : ℤ) (r' : Room),
      doFinalize r now = some r' → Step r r'
  | advanceResult : ∀ (r : Room) (now : ℤ) (r' : Room),
      runAdvance r now = some r' → Step r r'
  | nextPlayer : ∀ (r : Room) (now : ℤ) (r' : Room),
      handleNextPlayer r now = some r' → Step r r'

theorem inv_startAuction (r : Room) (now : ℤ) (r' : Room)
    (h : handleStartAuction r now = some r') (hinv : Inv r) : Inv r' := by
  simp only [handleStartAuction] at h
  split at h
  · exact absurd h (by simp)
  · split at h
    · obtain rfl := Option.some.inj h
      exact ⟨hinv.1, fun tid b h1 h2 => hinv.2 tid b h1 h2⟩
    · obtain rfl := Option.some.inj h
      exact ⟨hinv.1, fun tid b h1 h2 => hinv.2 tid b h1 h2⟩

theorem inv_nextPlayer (r : Room) (now : ℤ) (r' : Room)
    (h : handleNextPlayer r now = some r') (hinv : Inv r) : Inv r' := by
  simp only [handleNextPlayer] at h
  split at h
  · exact absurd h (by simp)
  · rename_i hbid
    rw [not_not] at hbid
    split at h
    · obtain rfl := Option.some.inj h
      refine ⟨hinv.1, ?_⟩
      intro tid b h1 h2
      have h2' : r.auction.currentBidLakhs = some b := h2
      rw [hbid] at h2'
      cases h2'
    · obtain rfl := Option.some.inj h
      refine ⟨hinv.1, ?_⟩
      intro tid b h1 h2
      cases h1

theorem inv_advanceResult (r : Room) (now : ℤ) (r' : Room)
    (h : runAdvance r now = some r') (hinv : Inv r) : Inv r' := by
  simp only [runAdvance] at h
  split at h
  · exact absurd h (by simp)
  · obtain rfl := Option.some.inj h
    refine ⟨hinv.1, ?_⟩
    intro tid b h1 h2
    cases h1

theorem inv_useTimeBank (r : Room) (tid : String) (now : ℤ) (r' : Room)
    (h : handleUseTimeBank r tid now = some r') (hinv : Inv r) : Inv r' := by
  simp only [handleUseTimeBank] at h
  split at h
  · exact absurd h (by simp)
  · split at h
    · exact absurd h (by simp)
    · rename_i myTeam hlook
      split at h
      · exact absurd h (by simp)
      · obtain rfl := Option.some.inj h
        constructor
        · apply purseOK_setKV hinv.1
          exact hinv.1 _ (lookupKV_mem _ _ _ hlook)
        · intro tid' b h1 h2
          obtain ⟨t, hlt, hble⟩ := hinv.2 tid' b h1 h2
          by_cases he : tid' = tid
          · subst he
            rw [hlook] at hlt
            obtain rfl := Option.some.inj hlt
            exact ⟨_, lookupKV_setKV_self _ _ _, hble⟩
          · refine ⟨t, ?_, hble⟩
            show lookupKV (setKV r.teams tid _) tid' = some t
            rw [lookupKV_setKV_ne _ _ _ _ he]
            exact hlt

theorem inv_createTeam (r : Room) (name : String) (uid : Option String)
    (key : String) (now : ℤ) (r' : Room)
    (hfresh : lookupKV r.teams key = none)
    (h : handleCreateTeam r name uid key now = some r') (hinv : Inv r) :
    Inv r' := by
  cases uid with
  | none => simp [handleCreateTeam] at h
  | some u =>
    simp only [handleCreateTeam] at h
    split at h
    · exact absurd h (by simp)
    · split at h
      · exact absurd h (by simp)
      · split at h
        · exact absurd h (by simp)
        · obtain rfl := Option.some.inj h
          constructor
          · apply purseOK_setKV hinv.1
            norm_num
          · intro tid b h1 h2
            obtain ⟨t, hlt, hble⟩ := hinv.2 tid b h1 h2
            have hne : tid ≠ key := by
              intro he
              rw [he, hfresh] at hlt
              cases hlt
            rw [← lookupKV_setKV_ne r.teams key tid _ hne] at hlt
            exact ⟨t, hlt, hble⟩

section BidOps

set_option maxHeartbeats 1600000

theorem inv_startBid (r : Room) (tid : String) (base : ℚ)
    (pid : Option String) (now : ℤ) (r' : Room)
    (h : handleStartBidding r tid base pid now = some r') (hinv : Inv r) :
    Inv r' := by
  cases pid with
  | none => simp [handleStartBidding] at h
  | some p =>
    simp only [handleStartBidding] at h
    split at h
    · exact absurd h (by simp)
    · split at h
      · exact absurd h (by simp)
      · split at h
        · exact absurd h (by simp)
        · rename_i myTeam hlook
          split at h
          · exact absurd h (by simp)
          · split at h
            · exact absurd h (by simp)
            · split at h
              · exact absurd h (by simp)
              · split at h
                · exact absurd h (by simp)
                · split at h
                  · exact absurd h (by simp)
                  · split at h
                    · exact absurd h (by simp)
                    · rename_i hble
                      obtain rfl := Option.some.inj h
                      refine ⟨hinv.1, ?_⟩
                      intro tid' b h1 h2
                      have h1' : (some tid : Option String) = some tid' := h1
                      have h2' : (some base : Option ℚ) = some b := h2
                      obtain rfl := Option.some.inj h1'
                      obtain rfl := Option.some.inj h2'
                      exact ⟨myTeam, hlook, not_lt.mp hble⟩

theorem inv_raiseBid (r : Room) (tid : String) (inc base : ℚ)
    (pid : Option String) (now : ℤ) (r' : Room)
    (h : handleRaiseBid r tid inc base pid now = some r') (hinv : Inv r) :
    Inv r' := by
  cases pid with
  | none => simp [handleRaiseBid] at h
  | some p =>
    simp only [handleRaiseBid] at h
    split at h
    · exact absurd h (by simp)
    · split at h
      · exact absurd h (by simp)
      · split at h
        · exact absurd h (by simp)
        · rename_i myTeam hlook
          split at h
          · exact absurd h (by simp)
          · split at h
            · exact absurd h (by simp)
            · split at h
              · exact absurd h (by simp)
              · split at h
                · exact absurd h (by simp)
                · split at h
                  · exact absurd h (by simp)
                  · split at h
                    · exact absurd h (by simp)
                    · split at h
                      · exact absurd h (by simp)
                      · rename_i hble
                        obtain rfl := Option.some.inj h
                        refine ⟨hinv.1, ?_⟩
                        intro tid' b h1 h2
                        have h1' : (some tid : Option String) = some tid' := h1
                        have h2' :
                          some (r.auction.currentBidLakhs.getD base + inc) =
                            some b := h2
                        obtain rfl := Option.some.inj h1'
                        obtain rfl := Option.some.inj h2'
                        exact ⟨myTeam, hlook, not_lt.mp hble⟩

theorem inv_customBid (r : Room) (tid : String) (n : Option ℚ)
    (showCr : Bool) (base : ℚ) (pid : Option String) (now : ℤ) (r' : Room)
    (h : handlePlaceCustomBid r tid n showCr base pid now = some r')
    (hinv : Inv r) : Inv r' := by
  cases pid with
  | none => simp [handlePlaceCustomBid] at h
  | some p =>
    cases hlook : lookupKV r.teams tid with
    | none => simp [handlePlaceCustomBid, hlook] at h
    | some myTeam =>
      cases n with
      | none => simp [handlePlaceCustomBid, hlook] at h
      | some v =>
        simp only [handlePlaceCustomBid, hlook, Option.ite_none_left_eq_some,
          Option.some.injEq] at h
        obtain ⟨hp, ht, hoop, hn0, hmod, hbt, hst, hdl, hso, hsc, hble, rfl⟩ :=
          h
        refine ⟨hinv.1, ?_⟩
        intro tid' b h1 h2
        have h1' : (some tid : Option String) = some tid' := h1
        have h2' : some (if showCr = true then v * 100 else v) = some b := h2
        obtain rfl := Option.some.inj h1'
        obtain rfl := Option.some.inj h2'
        exact ⟨myTeam, hlook, not_lt.mp hble⟩

end BidOps

section Settlements

set_option maxHeartbeats 1600000

theorem inv_finalizeTimer (r : Room) (now : ℤ) (r' : Room)
    (h : doFinalize r now = some r') (hinv : Inv r) : Inv r' := by
  cases hdl : r.auction.bidDeadlineTs with
  | none => simp [doFinalize, hdl] at h
  | some d =>
    cases hpid : currentPlayerIdOf r.auction with
    | none => simp [doFinalize, hdl, hpid] at h
    | some pid =>
      cases hpl : lookupKV r.players pid with
      | none => simp [doFinalize, hdl, hpid, hpl] at h
      | some player =>
        cases hwin : winningBid r.auction with
        | none =>
          simp only [doFinalize, hdl, hpid, hpl, hwin,
            Option.ite_none_left_eq_some, Option.some.injEq] at h
          obtain ⟨h1, h2, h3, h4, rfl⟩ := h
          exact inv_unsoldUpdates r pid player now hinv
        | some tb =>
          obtain ⟨tid, b⟩ := tb
          cases hteam : lookupKV r.teams tid with
          | none => simp [doFinalize, hdl, hpid, hpl, hwin, hteam] at h
          | some team =>
            simp only [doFinalize, hdl, hpid, hpl, hwin, hteam,
              Option.ite_none_left_eq_some, Option.some.injEq] at h
            obtain ⟨h1, h2, h3, h4, rfl⟩ := h
            obtain ⟨hbt, hbl⟩ := winningBid_some hwin
            obtain ⟨t, hlt, hble⟩ := hinv.2 tid b hbt hbl
            rw [hteam] at hlt
            obtain rfl := Option.some.inj hlt
            exact inv_soldUpdates r pid player tid _ b now hinv hble

theorem inv_autoSell (r : Room) (now : ℤ) (r' : Room)
    (h : autoSellToSingleActiveBidder r now = some r') (hinv : Inv r) :
    Inv r' := by
  cases hpid : currentPlayerIdOf r.auction with
  | none => simp [autoSellToSingleActiveBidder, hpid] at h
  | some pid =>
    cases hwin : winningBid r.auction with
    | none => simp [autoSellToSingleActiveBidder, hpid, hwin] at h
    | some tb =>
      obtain ⟨tid, b⟩ := tb
      simp only [autoSellToSingleActiveBidder, hpid, hwin,
        Option.ite_none_left_eq_some] at h
      obtain ⟨h1, h2, h⟩ := h
      cases hact : (r.teams.map Prod.fst).filter
          (fun id => ! isEffectivelySatOut id r.auction r.teams) with
      | nil =>
        rw [hact] at h
        simp at h
      | cons x xs =>
        cases xs with
        | cons y ys =>
          rw [hact] at h
          simp at h
        | nil =>
          rw [hact] at h
          dsimp only at h
          cases hteam : lookupKV r.teams x with
          | none =>
            rw [hteam] at h
            simp at h
          | some team =>
            cases hpl : lookupKV r.players pid with
            | none =>
              rw [hteam, hpl] at h
              simp at h
            | some player =>
              simp only [hteam, hpl, Option.ite_none_left_eq_some,
                Option.some.injEq] at h
              obtain ⟨h3, rfl⟩ := h
              rw [not_not] at h3
              obtain ⟨hbt, hbl⟩ := winningBid_some hwin
              obtain ⟨t, hlt, hble⟩ := hinv.2 tid b hbt hbl
              rw [h3, hlt] at hteam
              obtain rfl := Option.some.inj hteam
              exact inv_soldUpdates r pid player _ t b now hinv hble

theorem inv_autoSell_getD (r1 : Room) (now : ℤ) (hinv1 : Inv r1) :
    Inv ((autoSellToSingleActiveBidder r1 now).getD r1) := by
  cases hauto : autoSellToSingleActiveBidder r1 now with
  | none => exact hinv1
  | some r2 => exact inv_autoSell r1 now r2 hauto hinv1

theorem inv_sitOut (r : Room) (tid : String) (now : ℤ) (r' : Room)
    (h : handleSitOut r tid now = some r') (hinv : Inv r) : Inv r' := by
  cases hlook : lookupKV r.teams tid with
  | none => simp [handleSitOut, hlook] at h
  | some team0 =>
    cases hpid : currentPlayerIdOf r.auction with
    | none => simp [handleSitOut, hlook, hpid] at h
    | some pid =>
      simp only [handleSitOut, hlook, hpid,
        Option.ite_none_left_eq_some] at h
      obtain ⟨ht, hp, hmem, h⟩ := h
      split at h
      · obtain rfl := Option.some.inj h
        exact ⟨hinv.1, fun tid' b h1 h2 => hinv.2 tid' b h1 h2⟩
      · split at h
        · obtain rfl := Option.some.inj h
          exact inv_autoSell_getD _ now
            ⟨hinv.1, fun tid' b h1 h2 => hinv.2 tid' b h1 h2⟩
        · cases hpl : lookupKV r.players pid with
          | none =>
            rw [hpl] at h
            simp at h
          | some player =>
            cases hwin : winningBid r.auction with
            | none =>
              simp only [hpl, hwin, Option.some.injEq] at h
              obtain rfl := h
              exact inv_unsoldUpdates r pid player now hinv
            | some tb =>
              obtain ⟨tid0, b⟩ := tb
              cases hteam : lookupKV r.teams tid0 with
              | none =>
                simp [hpl, hwin, hteam] at h
              | some team =>
                simp only [hpl, hwin, hteam, Option.some.injEq] at h
                obtain rfl := h
                obtain ⟨hbt, hbl⟩ := winningBid_some hwin
                obtain ⟨t, hlt, hble⟩ := hinv.2 tid0 b hbt hbl
                rw [hteam] at hlt
                obtain rfl := Option.some.inj hlt
                exact inv_soldUpdates r pid player tid0 _ b now hinv hble

end Settlements

theorem inv_step : ∀ {r r' : Room}, Step r r' → Inv r → Inv r'
  | _, _, .createTeam r name uid key now r' hfresh heq, hinv =>
    inv_createTeam r name uid key now r' hfresh heq hinv
  | _, _, .startAuction r now r' heq, hinv => inv_startAuction r now r' heq hinv
  | _, _, .startBid r tid base pid now r' heq, hinv =>
    inv_startBid r tid base pid now r' heq hinv
  | _, _, .raiseBid r tid inc base pid now r' heq, hinv =>
    inv_raiseBid r tid inc base pid now r' heq hinv
  | _, _, .customBid r tid n showCr base pid now r' heq, hinv =>
    inv_customBid r tid n showCr base pid now r' heq hinv
  | _, _, .sitOut r tid now r' heq, hinv => inv_sitOut r tid now r' heq hinv
  | _, _, .useTimeBank r tid now r' heq, hinv =>
    inv_useTimeBank r tid now r' heq hinv
  | _, _, .finalizeTimer r now r' heq, hinv =>
    inv_finalizeTimer r now r' heq hinv
  | _, _, .advanceResult r now r' heq, hinv =>
    inv_advanceResult r now r' heq hinv
  | _, _, .nextPlayer r now r' heq, hinv => inv_nextPlayer r now r' heq hinv

theorem inv_trace (r r' : Room) (h : Relation.ReflTransGen Step r r')
    (hinv : Inv r) : Inv r' := by
  induction h with
  | refl => exact hinv
  | tail h1 h2 ih => exact inv_step h2 ih

/-- **C4**: across any sequence of accepted operations (team creation,
auction start, start/raise/custom bids, sit-outs with their settlements,
time-bank use, timer settlement, result advance, admin skip), no team's
`purseRemainingLakhs` ever goes negative: the bid-accepting handlers reject
any amount exceeding the bidder's purse (maintaining `BidOK`), and settlement
debits the winning team by exactly the accepted bid, so `PurseOK` is
preserved. -/
theorem purse_nonneg_spec :
    (∀ r r' : Room, Relation.ReflTransGen Step r r' → Inv r →
      PurseOK r'.teams) ∧
    (∀ r r' : Room, Step r r' → Inv r → Inv r') :=
  ⟨fun r r' h hinv => (inv_trace r r' h hinv).1,
   fun _ _ h hinv => inv_step h hinv⟩

/-- Witness for `purse_nonneg_spec` at the Scenario-C room. -/
theorem purse_nonneg_spec_witness : PurseOK roomC.teams :=
  purse_nonneg_spec.1 roomC roomC Relation.ReflTransGen.refl
    ⟨by
      intro kv hkv
      simp only [roomC, List.mem_singleton] at hkv
      subst hkv
      norm_num [teamC],
     fun tid b h1 _ => by simp [roomC] at h1⟩

end IplAuction
